import Mathlib

/-!
# Verification of the jemalloc-backed instrumented allocation layer

Shallow embedding of `JeAlloc.cc` (the `JeAllocImpl` facade with the
`CC_MEMORY_TRACKER` configuration both enabled and disabled), together with
models of the external collaborators the file calls into: the backing
allocator (jemalloc), the `MemTracker` ledger, and libc `sprintf`.

Memory is modelled as an association list from abstract addresses (`Nat`,
with `0` as the null pointer) to blocks; a block carries its usable size and
its byte contents.  Out-of-bounds or through-invalid-pointer accesses and
failed fatal assertions are represented by a `Fault` error.
-/

set_option autoImplicit false

namespace JeAlloc

/-- A fault: either undefined behaviour (a wild memory access) or a failed
fatal assertion (`CCASSERT`). -/
inductive Fault where
  | wildAccess
  | assertFail
  deriving Repr, DecidableEq

/-- A backing-allocator block: its usable size and its byte contents
(`data.length = usable` in every reachable state). -/
structure Block where
  usable : Nat
  data : List Nat
  deriving Repr, DecidableEq

/-- One ledger record of the allocation tracker: requested (untagged) size
and the caller-supplied call-site descriptor. -/
structure TrackRec where
  size : Nat
  file : String
  line : Int
  func : String
  deriving Repr, DecidableEq

/-- Global state visible to the allocation layer: the backing heap, the next
fresh abstract address, and the tracker ledger. -/
structure State where
  heap : List (Nat × Block)
  nextAddr : Nat
  tracker : List (Nat × TrackRec)
  deriving Repr, DecidableEq

deriving instance DecidableEq for Except

/-- The null pointer. -/
def nullPtr : Nat := 0

/-- Association-list lookup (first match). -/
def lookupA {α : Type} : List (Nat × α) → Nat → Option α
  | [], _ => none
  | (k, v) :: t, a => if k = a then some v else lookupA t a

/-- Association-list update of the first entry with the given key. -/
def updateA {α : Type} : List (Nat × α) → Nat → α → List (Nat × α)
  | [], _, _ => []
  | (k, v) :: t, a, w => if k = a then (k, w) :: t else (k, v) :: updateA t a w

/-- Association-list removal of every entry with the given key. -/
def eraseA {α : Type} : List (Nat × α) → Nat → List (Nat × α)
  | [], _ => []
  | (k, v) :: t, a => if k = a then eraseA t a else (k, v) :: eraseA t a

/-- Overwrite the bytes of `l` starting at `off` with `src`
(callers establish `off + src.length ≤ l.length`). -/
def listWrite (l : List Nat) (off : Nat) (src : List Nat) : List Nat :=
  l.take off ++ src ++ l.drop (off + src.length)

/-- Read `len` bytes of `l` starting at `off`. -/
def listRead (l : List Nat) (off len : Nat) : List Nat :=
  (l.drop off).take len

/-- Modelled from the spec: the opaque backing-allocator capability
(jemalloc, not part of this repository).  `sizeClass` gives the usable size
granted for a request (jemalloc guarantees `request ≤ sizeClass request`,
captured by `Behavior.Valid`); `canAlloc` decides whether an allocation at a
given allocation counter succeeds; `junk` gives the uninitialized contents
of fresh memory. -/
structure Behavior where
  sizeClass : Nat → Nat
  canAlloc : Nat → Nat → Bool
  junk : Nat → Nat → Nat

/-- The backing allocator never returns a block smaller than the request. -/
def Behavior.Valid (B : Behavior) : Prop :=
  ∀ r, r ≤ B.sizeClass r

/-- The contents of a freshly returned (uninitialized) block. -/
def freshData (B : Behavior) (a u : Nat) : List Nat :=
  (List.range u).map (B.junk a)

/-- Modelled from the spec: backing `allocate(size) -> ptr|null`
(`je_malloc`).  On success the returned address is fresh and the block's
usable size is `sizeClass req`; on failure the null pointer is returned and
the state is unchanged. -/
def je_malloc (B : Behavior) (s : State) (req : Nat) : Nat × State :=
  if B.canAlloc s.nextAddr req then
    let u := B.sizeClass req
    (s.nextAddr,
      { heap := (s.nextAddr, ⟨u, freshData B s.nextAddr u⟩) :: s.heap,
        nextAddr := s.nextAddr + 1,
        tracker := s.tracker })
  else (nullPtr, s)

/-- Modelled from the spec: backing `allocate_aligned(align, size)`
(`je_aligned_alloc`).  Addresses are opaque handles in this model, so the
alignment does not change which block is produced; only the requested size
is observable. -/
def je_aligned_alloc (B : Behavior) (s : State) (align req : Nat) : Nat × State :=
  let _ := align
  je_malloc B s req

/-- Modelled from the spec: backing `usable_size(ptr) -> size`
(`je_malloc_usable_size`).  Querying an address that is not a live block
(including null) is undefined behaviour. -/
def je_malloc_usable_size (s : State) (p : Nat) : Except Fault Nat :=
  match lookupA s.heap p with
  | some b => .ok b.usable
  | none => .error .wildAccess

/-- Modelled from the spec: backing `free(ptr)` (`je_free`).  Freeing null
is a no-op; freeing a non-live address is undefined behaviour. -/
def je_free (s : State) (p : Nat) : Except Fault State :=
  if p = nullPtr then .ok s
  else
    match lookupA s.heap p with
    | some _ => .ok { s with heap := eraseA s.heap p }
    | none => .error .wildAccess

/-- Read `len` bytes at offset `off` of the block at `p`; a wild access if
`p` is not live or the range leaves the usable region. -/
def readBytes (s : State) (p off len : Nat) : Except Fault (List Nat) :=
  match lookupA s.heap p with
  | some b =>
      if off + len ≤ b.usable then .ok (listRead b.data off len)
      else .error .wildAccess
  | none => .error .wildAccess

/-- Write the bytes `src` at offset `off` of the block at `p`; a wild access
if `p` is not live or the range leaves the usable region. -/
def writeBytes (s : State) (p off : Nat) (src : List Nat) : Except Fault State :=
  match lookupA s.heap p with
  | some b =>
      if off + src.length ≤ b.usable then
        .ok { s with heap := updateA s.heap p ⟨b.usable, listWrite b.data off src⟩ }
      else .error .wildAccess
  | none => .error .wildAccess

/-- `MEM_CHECKTAG_SIZE` in the tracking configuration (`CC_MEMORY_TRACKER`
defined). -/
def MEM_CHECKTAG_SIZE : Nat := 4

/-- The little-endian byte image of the 32-bit canary constant
`MEM_CHECKTAG = 0x20170719`, as `memcpy` lays it out. -/
def tagBytes : List Nat := [0x19, 0x07, 0x17, 0x20]

/-- `CheckOverflowAlloc`: stamp the canary at `usable_size(ptr) - 4`. -/
def CheckOverflowAlloc (s : State) (p : Nat) : Except Fault State :=
  match je_malloc_usable_size s p with
  | .error e => .error e
  | .ok size => writeBytes s p (size - MEM_CHECKTAG_SIZE) tagBytes

/-- `CheckOverflowFree`: read the 4 bytes at `usable_size(ptr) - 4` and
fatally assert they equal the canary constant. -/
def CheckOverflowFree (s : State) (p : Nat) : Except Fault Unit :=
  match je_malloc_usable_size s p with
  | .error e => .error e
  | .ok size =>
      match readBytes s p (size - MEM_CHECKTAG_SIZE) MEM_CHECKTAG_SIZE with
      | .error e => .error e
      | .ok tag => if tag = tagBytes then .ok () else .error .assertFail

/-- Modelled from the spec: the Allocation Tracker's `record_alloc(address,
size, file, line, function)` — inserts a ledger record keyed by the
address. -/
def RecordAlloc (t : List (Nat × TrackRec)) (p count : Nat)
    (file : String) (line : Int) (func : String) : List (Nat × TrackRec) :=
  (p, ⟨count, file, line, func⟩) :: t

/-- Modelled from the spec: the Allocation Tracker's `record_free(address)`
— removes the ledger record keyed by the address. -/
def RecordFree (t : List (Nat × TrackRec)) (p : Nat) : List (Nat × TrackRec) :=
  eraseA t p

namespace JeAllocImpl

/-- `JeAllocImpl::AllocBytes`, tracking configuration: pad the request by
the tag width, stamp the canary, record the allocation.  Note the canary is
stamped before any null check, exactly as in the source. -/
def AllocBytes (B : Behavior) (s : State) (count : Nat)
    (file : String) (line : Int) (func : String) : Except Fault (Nat × State) :=
  let r := je_malloc B s (count + MEM_CHECKTAG_SIZE)
  match CheckOverflowAlloc r.2 r.1 with
  | .error e => .error e
  | .ok s2 => .ok (r.1, { s2 with tracker := RecordAlloc s2.tracker r.1 count file line func })

/-- `JeAllocImpl::ReallocBytes`, tracking configuration, translated
branch-for-branch from the source. -/
def ReallocBytes (B : Behavior) (s : State) (ptr count : Nat)
    (file : String) (line : Int) (func : String) : Except Fault (Nat × State) :=
  if ptr ≠ nullPtr then
    if count = 0 then
      match CheckOverflowFree s ptr with
      | .error e => .error e
      | .ok _ =>
          let s1 := { s with tracker := RecordFree s.tracker ptr }
          match je_free s1 ptr with
          | .error e => .error e
          | .ok s2 => .ok (nullPtr, s2)
    else
      match je_malloc_usable_size s ptr with
      | .error e => .error e
      | .ok usable =>
          let oldsz := min (usable - MEM_CHECKTAG_SIZE) count
          let r := je_malloc B s (count + MEM_CHECKTAG_SIZE)
          match readBytes r.2 ptr 0 oldsz with
          | .error e => .error e
          | .ok bytes =>
              match writeBytes r.2 r.1 0 bytes with
              | .error e => .error e
              | .ok s2 =>
                  match CheckOverflowAlloc s2 r.1 with
                  | .error e => .error e
                  | .ok s3 =>
                      let s4 := { s3 with tracker := RecordAlloc s3.tracker r.1 count file line func }
                      match CheckOverflowFree s4 ptr with
                      | .error e => .error e
                      | .ok _ =>
                          let s5 := { s4 with tracker := RecordFree s4.tracker ptr }
                          match je_free s5 ptr with
                          | .error e => .error e
                          | .ok s6 => .ok (r.1, s6)
  else
    if count ≠ 0 then
      let r := je_malloc B s (count + MEM_CHECKTAG_SIZE)
      match CheckOverflowAlloc r.2 r.1 with
      | .error e => .error e
      | .ok s2 => .ok (r.1, { s2 with tracker := RecordAlloc s2.tracker r.1 count file line func })
    else
      .ok (nullPtr, s)

/-- `JeAllocImpl::AllocBytesAligned`, tracking configuration.  The request
is padded by the tag width (`MEM_CHECKTAG_SIZE` is 4 because
`CC_MEMORY_TRACKER` is defined), but the canary/tracker block in the source
is guarded by `#ifdef COCOS_MEMORY_TRACKER` — a different macro, which the
tracking toggle does not define — so that branch is compiled out and the
raw pointer is returned with no stamp and no ledger record. -/
def AllocBytesAligned (B : Behavior) (s : State) (align count : Nat)
    (file : String) (line : Int) (func : String) : Except Fault (Nat × State) :=
  let r := je_aligned_alloc B s align (count + MEM_CHECKTAG_SIZE)
  let _ := (file, line, func)
  .ok (r.1, r.2)

/-- `JeAllocImpl::DeallocBytes`, tracking configuration: null is dealt with
first, then the canary is validated, the record removed and the block
freed. -/
def DeallocBytes (s : State) (ptr : Nat) : Except Fault State :=
  if ptr = nullPtr then .ok s
  else
    match CheckOverflowFree s ptr with
    | .error e => .error e
    | .ok _ => je_free { s with tracker := RecordFree s.tracker ptr } ptr

/-- `JeAllocImpl::AllocBytes` with tracking compiled out
(`MEM_CHECKTAG_SIZE` is 0): a bare pass-through to the backing allocator. -/
def AllocBytesNoTrack (B : Behavior) (s : State) (count : Nat) : Nat × State :=
  je_malloc B s count

/-- Modelled from the spec: the backing allocator's native resize primitive
`resize_in_place(ptr, size) -> ptr|null` (`je_realloc`, used only when
tracking is disabled).  On failure it returns null and leaves the old block
untouched. -/
def je_realloc (B : Behavior) (s : State) (p count : Nat) : Nat × State :=
  if p = nullPtr then je_malloc B s count
  else if count = 0 then
    (nullPtr, { s with heap := eraseA s.heap p })
  else
    match lookupA s.heap p with
    | none => (nullPtr, s)
    | some b =>
        if B.canAlloc s.nextAddr count then
          let u := B.sizeClass count
          let nd := listWrite (freshData B p u) 0 (listRead b.data 0 (min b.usable count))
          (p, { s with heap := updateA s.heap p ⟨u, nd⟩ })
        else (nullPtr, s)

/-- `JeAllocImpl::ReallocBytes` with tracking compiled out: a direct
delegation to the backing allocator's resize primitive. -/
def ReallocBytesNoTrack (B : Behavior) (s : State) (p count : Nat) : Nat × State :=
  je_realloc B s p count

end JeAllocImpl

/-- `JeDumpData`: the cursor (offset into the output buffer) and remaining
capacity (a C `int`, hence `Int`) threaded through the stats callback. -/
structure JeDumpData where
  buf : Nat
  size : Int
  deriving Repr, DecidableEq

/-- `JeStatsPrint`: one callback invocation for one report fragment `msg`.
Returns the byte writes `(index, value)` it performs on the output buffer.
A negative `memcpy` length (possible when the capacity counter went
negative) converts to a huge `size_t`: an unbounded wild write. -/
def JeStatsPrint (jd : JeDumpData) (msg : List Nat) :
    Except Fault (List (Nat × Nat) × JeDumpData) :=
  if jd.size = 0 then .ok ([], jd)
  else
    let len0 : Int := (msg.length : Int)
    let len : Int := if len0 > jd.size then jd.size else len0
    if len < 0 then .error .wildAccess
    else
      let l := len.toNat
      .ok ((List.range l).map (fun i => (jd.buf + i, msg.getD i 0)) ++ [(jd.buf + l, 0)],
        { buf := jd.buf + l, size := jd.size - len })

/-- The stream of callback invocations made by the backing allocator's
`je_malloc_stats_print`, folded over the fragment sequence. -/
def statsLoop (jd : JeDumpData) : List (List Nat) → Except Fault (List (Nat × Nat) × JeDumpData)
  | [] => .ok ([], jd)
  | m :: rest =>
      match JeStatsPrint jd m with
      | .error e => .error e
      | .ok (w, jd1) =>
          match statsLoop jd1 rest with
          | .error e => .error e
          | .ok (ws, jd2) => .ok (w ++ ws, jd2)

/-- `JeAllocImpl::DumpStats`: initialize the cursor at 0 with capacity
`bufsize - 1` and stream the fragments.  The result is the sequence of byte
writes performed on the caller's buffer. -/
def DumpStats (bufsize : Int) (frags : List (List Nat)) : Except Fault (List (Nat × Nat)) :=
  match statsLoop { buf := 0, size := bufsize - 1 } frags with
  | .error e => .error e
  | .ok (ws, _) => .ok ws

/-- Apply a sequence of byte writes to a buffer. -/
def applyWrites (buf : List Nat) (ws : List (Nat × Nat)) : List Nat :=
  ws.foldl (fun b iv => b.set iv.1 iv.2) buf

/-- A control-interface command issued to the backing allocator
(`je_mallctl`): a read of a named value or a named action. -/
inductive CtlCmd where
  | get (name : String)
  | set (name : String)
  deriving Repr, DecidableEq

/-- Modelled from the spec: the backing allocator's control interface as
`TrimAlloc` observes it — whether the arena-count read succeeds and the
value it reports. -/
structure CtlBehavior where
  narenasOk : Bool
  narenasVal : Int
  deriving Repr, DecidableEq

/-- Model of `sprintf(buf, "arena.%d.purge", narenas)`: the command string
built by `TrimAlloc`.  With the index equal to `arenas.narenas` this is
jemalloc's single purge-all control command. -/
def purgeCommand (n : Int) : String := "arena." ++ toString n ++ ".purge"

/-- `JeAllocImpl::TrimAlloc`, as the trace of control commands it issues:
`narenas` starts at 0, the `arenas.narenas` read updates it on success, and
one purge command is issued.  Results of both commands are ignored, so the
function is total: no failure is observable. -/
def TrimAlloc (C : CtlBehavior) : List CtlCmd :=
  let narenas : Int := if C.narenasOk then C.narenasVal else 0
  [CtlCmd.get "arenas.narenas", CtlCmd.set (purgeCommand narenas)]

/-- The number of bytes `sprintf` writes into `TrimAlloc`'s 24-byte local
buffer: the command string plus its null terminator. -/
def sprintfBytesWritten (n : Int) : Nat := (purgeCommand n).length + 1

/-- The initial state: empty heap, empty ledger, first fresh address 1. -/
def initState : State := { heap := [], nextAddr := 1, tracker := [] }

/-- A concrete backing-allocator behavior for witnesses: every request
succeeds, usable size equals the request, fresh memory is zeroed. -/
def exactB : Behavior :=
  { sizeClass := fun r => r, canAlloc := fun _ _ => true, junk := fun _ _ => 0 }

/-- A concrete behavior whose smallest size class is 16 bytes (as in
jemalloc): a request of at most 16 bytes yields a 16-byte usable block. -/
def slackB : Behavior :=
  { sizeClass := fun r => max r 16, canAlloc := fun _ _ => true, junk := fun _ _ => 0 }

/-- A concrete behavior whose allocations always fail. -/
def failB : Behavior :=
  { sizeClass := fun r => r, canAlloc := fun _ _ => false, junk := fun _ _ => 0 }

/-- A concrete state holding one live 5-byte allocation at address 1 (as
produced by `AllocBytes exactB initState 5 "f" 7 "g"`), used to instantiate
theorems with hypotheses. -/
def exState : State :=
  { heap := [(1, ⟨9, [0, 0, 0, 0, 0, 0x19, 0x07, 0x17, 0x20]⟩)],
    nextAddr := 2,
    tracker := [(1, ⟨5, "f", 7, "g"⟩)] }

/-- A concrete state holding one live 5-byte allocation at address 1 whose
canary has been overwritten by the caller. -/
def exStateBad : State :=
  { heap := [(1, ⟨9, [0, 0, 0, 0, 0, 0xAB, 0x07, 0x17, 0x20]⟩)],
    nextAddr := 2,
    tracker := [(1, ⟨5, "f", 7, "g"⟩)] }

section AssocLemmas

variable {α : Type}

theorem lookupA_cons_self (a : Nat) (v : α) (t : List (Nat × α)) :
    lookupA ((a, v) :: t) a = some v := by
  simp [lookupA]

theorem lookupA_cons_ne (a b : Nat) (v : α) (t : List (Nat × α)) (h : a ≠ b) :
    lookupA ((a, v) :: t) b = lookupA t b := by
  simp [lookupA, h]

theorem updateA_cons_self (a : Nat) (v w : α) (t : List (Nat × α)) :
    updateA ((a, v) :: t) a w = (a, w) :: t := by
  simp [updateA]

theorem lookupA_eraseA_self (t : List (Nat × α)) (a : Nat) :
    lookupA (eraseA t a) a = none := by
  induction t with
  | nil => rfl
  | cons kv t ih =>
      by_cases h : kv.1 = a
      · simpa [eraseA, h] using ih
      · simpa [eraseA, lookupA, h] using ih

theorem lookupA_eraseA_ne (t : List (Nat × α)) (a b : Nat) (h : b ≠ a) :
    lookupA (eraseA t a) b = lookupA t b := by
  induction t with
  | nil => rfl
  | cons kv t ih =>
      have hab : ¬(a = b) := fun e => h e.symm
      by_cases hk : kv.1 = a
      · simpa [eraseA, lookupA, hk, hab] using ih
      · by_cases hb : kv.1 = b
        · simp [eraseA, lookupA, hk, hb, h]
        · simpa [eraseA, lookupA, hk, hb] using ih

theorem eraseA_cons_ne (a b : Nat) (v : α) (t : List (Nat × α)) (h : a ≠ b) :
    eraseA ((a, v) :: t) b = (a, v) :: eraseA t b := by
  simp [eraseA, h]

end AssocLemmas

section ListLemmas

theorem listWrite_length (l src : List Nat) (off : Nat)
    (h : off + src.length ≤ l.length) :
    (listWrite l off src).length = l.length := by
  simp [listWrite]
  omega

/-- Pointwise description of `listWrite` (in-bounds case). -/
theorem listWrite_getElem (l src : List Nat) (off : Nat)
    (h : off + src.length ≤ l.length) (i : Nat) :
    (listWrite l off src)[i]? =
      if i < off then l[i]?
      else if i < off + src.length then src[i - off]?
      else l[i]? := by
  unfold listWrite
  rw [List.append_assoc]
  have h1 : (l.take off).length = off := by rw [List.length_take]; omega
  by_cases c1 : i < off
  · rw [List.getElem?_append_left (by rw [h1]; exact c1), List.getElem?_take]
    simp [c1]
  · rw [List.getElem?_append_right (by rw [h1]; omega), h1]
    by_cases c2 : i < off + src.length
    · rw [List.getElem?_append_left (by omega : i - off < src.length)]
      simp [c1, c2]
    · rw [List.getElem?_append_right (by omega : src.length ≤ i - off), List.getElem?_drop]
      have h2 : off + src.length + (i - off - src.length) = i := by omega
      rw [h2]
      simp [c1, c2]

/-- Pointwise description of `listRead`. -/
theorem listRead_getElem (l : List Nat) (off len i : Nat) :
    (listRead l off len)[i]? = if i < len then l[off + i]? else none := by
  unfold listRead
  rw [List.getElem?_take]
  by_cases c : i < len
  · simp [c, List.getElem?_drop]
  · simp [c]

theorem listRead_listWrite_self (l src : List Nat) (off : Nat)
    (h : off + src.length ≤ l.length) :
    listRead (listWrite l off src) off src.length = src := by
  apply List.ext_getElem?
  intro i
  rw [listRead_getElem, listWrite_getElem l src off h]
  by_cases c : i < src.length
  · have h1 : ¬ off + i < off := by omega
    have h2 : off + i < off + src.length := by omega
    have h3 : off + i - off = i := by omega
    simp [c, h1, h2, h3]
  · have hnone : src[i]? = none := by
      rw [List.getElem?_eq_none_iff]
      omega
    simp [c, hnone]

/-- Framing: a write strictly after the read region leaves the read
unchanged. -/
theorem listRead_listWrite_right (l src : List Nat) (off a b : Nat)
    (h : a + b ≤ off) (hbound : off + src.length ≤ l.length) :
    listRead (listWrite l off src) a b = listRead l a b := by
  apply List.ext_getElem?
  intro i
  rw [listRead_getElem, listRead_getElem, listWrite_getElem l src off hbound]
  by_cases c : i < b
  · have h1 : a + i < off := by omega
    simp [c, h1]
  · simp [c]

/-- Framing: a write at the front whose region ends at or before the read
region leaves the read unchanged. -/
theorem listRead_listWrite_left (l src : List Nat) (off a b : Nat)
    (h : off + src.length ≤ a) (hbound : off + src.length ≤ l.length) :
    listRead (listWrite l off src) a b = listRead l a b := by
  apply List.ext_getElem?
  intro i
  rw [listRead_getElem, listRead_getElem, listWrite_getElem l src off hbound]
  by_cases c : i < b
  · have h1 : ¬ a + i < off := by omega
    have h2 : ¬ a + i < off + src.length := by omega
    simp [c, h1, h2]
  · simp [c]

/-- A prefix no longer than the block written at offset 0 reads back from
the source. -/
theorem take_listWrite_front (l src : List Nat) (k : Nat) (hk : k ≤ src.length)
    (hbound : src.length ≤ l.length) :
    (listWrite l 0 src).take k = src.take k := by
  apply List.ext_getElem?
  intro i
  rw [List.getElem?_take, List.getElem?_take]
  by_cases c : i < k
  · rw [listWrite_getElem l src 0 (by omega)]
    simp [c, show i < 0 + src.length by omega, show i < src.length by omega]
  · simp [c]

/-- A prefix ending at or before the written region reads back from the
original list. -/
theorem take_listWrite_back (l src : List Nat) (off k : Nat) (hk : k ≤ off)
    (hbound : off + src.length ≤ l.length) :
    (listWrite l off src).take k = l.take k := by
  apply List.ext_getElem?
  intro i
  rw [List.getElem?_take, List.getElem?_take]
  by_cases c : i < k
  · rw [listWrite_getElem l src off hbound]
    simp [c, show i < off by omega]
  · simp [c]

end ListLemmas

/-- C1: evaluation of the code at the failing input.  With tracking enabled,
`AllocBytesAligned(8, 16)` does request the padded size (the block granted
is 20 = 16 + 4 bytes) but, contrary to the claim, neither writes the canary
nor inserts a tracker record: the instrumentation in the source is guarded
by `#ifdef COCOS_MEMORY_TRACKER`, a misspelling of `CC_MEMORY_TRACKER`, so
it is compiled out.  As a consequence the subsequent `DeallocBytes` on that
pointer validates a canary that was never stamped and dies on the fatal
assertion. -/
theorem allocBytesAligned_drops_canary_and_record :
    JeAllocImpl.AllocBytesAligned exactB initState 8 16 "file.cc" 7 "fn"
      = .ok (1, { heap := [(1, ⟨20, List.replicate 20 0⟩)], nextAddr := 2, tracker := [] })
    ∧ JeAllocImpl.DeallocBytes
        { heap := [(1, ⟨20, List.replicate 20 0⟩)], nextAddr := 2, tracker := [] } 1
      = .error .assertFail := by
  constructor
  · decide
  · decide

/-- C2: evaluation of the code at the failing input.  After the sequence
`Allocate(5)`; `AllocBytesAligned(16, 8)` with tracking enabled, the live
pointers are addresses 2 and 1 but the ledger records only address 1: a
pointer allocated through the Facade is live with no tracker record, so the
record-exists-iff-live invariant fails (root cause: the misspelled
`COCOS_MEMORY_TRACKER` guard in `AllocBytesAligned`). -/
theorem tracker_ledger_misses_live_aligned_ptr :
    (JeAllocImpl.AllocBytes exactB initState 5 "a.cc" 1 "f").bind (fun r1 =>
      (JeAllocImpl.AllocBytesAligned exactB r1.2 16 8 "a.cc" 2 "f").map (fun r2 =>
        (r2.2.heap.map Prod.fst, r2.2.tracker.map Prod.fst)))
      = .ok ([2, 1], [1]) := by
  decide

/-- C3, counterexample: the canary sits at `usable_size(ptr) - 4`, not at
`ptr + count`, and the backing allocator may grant more than the padded
request (here a 16-byte size class for a 5-byte request).  Allocating 1
byte, writing 2 = count + 1 bytes and deallocating passes the canary
validation: the one-byte overflow is NOT detected, contrary to the claim. -/
theorem overflow_write_escapes_detection :
    (JeAllocImpl.AllocBytes slackB initState 1 "a.cc" 1 "f").bind (fun r =>
      (writeBytes r.2 r.1 0 [0xAB, 0xAB]).bind (fun s2 =>
        JeAllocImpl.DeallocBytes s2 r.1))
      = .ok { heap := [], nextAddr := 2, tracker := [] } := by
  decide

/-- C4, counterexample: with tracking enabled, when the backing allocator
cannot satisfy the request, `Allocate` does not return null to the caller —
`CheckOverflowAlloc` stamps the canary through the null pointer first, a
wild write (the source has no null check between `je_malloc` and the
stamp), so this layer does add a failure mode of its own. -/
theorem alloc_failure_faults_not_null :
    JeAllocImpl.AllocBytes failB initState 5 "a.cc" 1 "f" = .error .wildAccess := by
  decide

/-- C5, counterexample: `DumpStats(buf, 0)` sets the remaining capacity to
-1; on the first fragment the `len > jd->size` clamp assigns -1 to `len`
and `memcpy` receives `(size_t)(-1)` — an unbounded write, far beyond the
0-byte capacity.  Moreover `DumpStats(buf, 1)` with a pending fragment
performs no write at all, so the buffer is not null-terminated. -/
theorem dumpStats_bufsize_zero_wild_write :
    DumpStats 0 [[65]] = .error .wildAccess ∧ DumpStats 1 [[65]] = .ok [] := by
  constructor
  · decide
  · decide

/-- C9: `TrimAlloc` first issues the control read `arenas.narenas` and then
exactly one purge control command `arena.<narenas>.purge` — jemalloc's
purge-all primitive (an arena index equal to `arenas.narenas` means "all
arenas").  The trace is the same total function for every control-interface
behavior: a failed arena-count read leaves `narenas` at its initializer 0
and a failed purge is ignored, so no failure is observable. -/
theorem trimAlloc_queries_then_purges_all (C : CtlBehavior) :
    TrimAlloc C =
      [CtlCmd.get "arenas.narenas",
       CtlCmd.set (purgeCommand (if C.narenasOk then C.narenasVal else 0))] := rfl

/-- C10: for every `int` value of the queried arena count, the formatted
string `arena.<narenas>.purge` plus its null terminator occupies at most 24
bytes, so the `sprintf` into the 24-byte local buffer never writes out of
bounds. -/
theorem trimAlloc_sprintf_within_24_bytes (n : Int)
    (h1 : -2147483648 ≤ n) (h2 : n < 2147483648) :
    sprintfBytesWritten n ≤ 24 := by
  unfold sprintfBytesWritten purgeCommand
  rw [String.length_append, String.length_append]
  have harena : "arena.".length = 6 := rfl
  have hpurge : ".purge".length = 6 := rfl
  have hmid : (toString n).length ≤ 11 := by
    cases n with
    | ofNat m =>
        have hm : m < 10 ^ 10 := by
          rw [Int.ofNat_eq_natCast] at h2
          have h10 : (10 : Nat) ^ 10 = 10000000000 := by norm_num
          omega
        have : (toString (Int.ofNat m)).length = (Nat.repr m).length := rfl
        rw [this]
        have := Nat.repr_length m 10 (by norm_num) hm
        omega
    | negSucc m =>
        have hm : m + 1 < 10 ^ 10 := by
          rw [Int.negSucc_eq] at h1
          have h10 : (10 : Nat) ^ 10 = 10000000000 := by norm_num
          omega
        have : (toString (Int.negSucc m)).length = 1 + (Nat.repr (m + 1)).length := by
          show ("-" ++ Nat.repr (m + 1)).length = 1 + (Nat.repr (m + 1)).length
          rw [String.length_append]
          rfl
        rw [this]
        have := Nat.repr_length (m + 1) 10 (by norm_num) hm
        omega
  omega

/-- C10, witness: the extreme arena count `INT_MIN` formats to exactly 23
characters plus the terminator, still within the 24-byte buffer. -/
theorem trimAlloc_sprintf_within_24_bytes_witness :
    sprintfBytesWritten (-2147483648) ≤ 24 :=
  trimAlloc_sprintf_within_24_bytes (-2147483648) (by decide) (by decide)

/-- C6: the tracking-enabled `ReallocBytes` case split.  `ReallocBytes(null,
0)` returns null with the state untouched (no tracker or guard activity);
`ReallocBytes(null, N)` for `N ≠ 0` is the very same function of the state
as `Allocate(N)` (same return value, canary stamp and tracker record); and
`ReallocBytes(ptr, 0)` for a live `ptr` with intact canary validates the
canary, removes the tracker record, frees the block via the backing
allocator and returns null. -/
theorem reallocBytes_case_split (B : Behavior) (s : State)
    (f : String) (ln : Int) (fn : String) :
    JeAllocImpl.ReallocBytes B s nullPtr 0 f ln fn = .ok (nullPtr, s) ∧
    (∀ count : Nat, count ≠ 0 →
      JeAllocImpl.ReallocBytes B s nullPtr count f ln fn
        = JeAllocImpl.AllocBytes B s count f ln fn) ∧
    (∀ ptr blk, ptr ≠ nullPtr → lookupA s.heap ptr = some blk →
      4 ≤ blk.usable → listRead blk.data (blk.usable - 4) 4 = tagBytes →
      JeAllocImpl.ReallocBytes B s ptr 0 f ln fn
        = .ok (nullPtr,
            { heap := eraseA s.heap ptr, nextAddr := s.nextAddr,
              tracker := RecordFree s.tracker ptr })) := by
  refine ⟨?_, ?_, ?_⟩
  · simp [JeAllocImpl.ReallocBytes, nullPtr]
  · intro count hc
    simp [JeAllocImpl.ReallocBytes, JeAllocImpl.AllocBytes, nullPtr, hc]
  · intro ptr blk hp hlk h4 htag
    have hcancel : blk.usable - 4 + 4 = blk.usable := Nat.sub_add_cancel h4
    simp [JeAllocImpl.ReallocBytes, CheckOverflowFree, je_malloc_usable_size,
      readBytes, je_free, MEM_CHECKTAG_SIZE, hp, hlk, htag, hcancel]

/-- C8: `DeallocBytes(null)` is a no-op returning the state unchanged (no
backing-allocator call, no guard check, no tracker activity, no fault); for
a live non-null `ptr`, `DeallocBytes` validates the canary, removes the
tracker record and frees via the backing allocator, and the only observable
failure mode is the fatal assertion when the canary bytes mismatch. -/
theorem deallocBytes_contract (s : State) :
    JeAllocImpl.DeallocBytes s nullPtr = .ok s ∧
    (∀ ptr blk, ptr ≠ nullPtr → lookupA s.heap ptr = some blk → 4 ≤ blk.usable →
      (listRead blk.data (blk.usable - 4) 4 = tagBytes →
        JeAllocImpl.DeallocBytes s ptr
          = .ok { heap := eraseA s.heap ptr, nextAddr := s.nextAddr,
                  tracker := RecordFree s.tracker ptr }) ∧
      (listRead blk.data (blk.usable - 4) 4 ≠ tagBytes →
        JeAllocImpl.DeallocBytes s ptr = .error .assertFail)) := by
  refine ⟨?_, ?_⟩
  · simp [JeAllocImpl.DeallocBytes]
  · intro ptr blk hp hlk h4
    have hcancel : blk.usable - 4 + 4 = blk.usable := Nat.sub_add_cancel h4
    constructor
    · intro htag
      simp [JeAllocImpl.DeallocBytes, CheckOverflowFree, je_malloc_usable_size,
        readBytes, je_free, MEM_CHECKTAG_SIZE, hp, hlk, htag, hcancel]
    · intro htag
      simp [JeAllocImpl.DeallocBytes, CheckOverflowFree, je_malloc_usable_size,
        readBytes, je_free, MEM_CHECKTAG_SIZE, hp, hlk, htag, hcancel]

/-- C6, witness: at a concrete one-allocation state, `ReallocBytes(null, 5)`
coincides with `Allocate(5)` and `ReallocBytes(ptr, 0)` frees and
unregisters the live pointer. -/
theorem reallocBytes_case_split_witness :
    JeAllocImpl.ReallocBytes exactB exState nullPtr 5 "x.cc" 3 "h"
      = JeAllocImpl.AllocBytes exactB exState 5 "x.cc" 3 "h" ∧
    JeAllocImpl.ReallocBytes exactB exState 1 0 "x.cc" 3 "h"
      = .ok (nullPtr, { heap := eraseA exState.heap 1, nextAddr := exState.nextAddr,
                        tracker := RecordFree exState.tracker 1 }) :=
  ⟨(reallocBytes_case_split exactB exState "x.cc" 3 "h").2.1 5 (by decide),
   (reallocBytes_case_split exactB exState "x.cc" 3 "h").2.2 1
     ⟨9, [0, 0, 0, 0, 0, 0x19, 0x07, 0x17, 0x20]⟩
     (by decide) (by decide) (by decide) (by decide)⟩

/-- C8, witness: at concrete states, `DeallocBytes(null)` is a no-op,
deallocating a live pointer with intact canary succeeds and unregisters it,
and deallocating one with a clobbered canary dies on the fatal assertion. -/
theorem deallocBytes_contract_witness :
    JeAllocImpl.DeallocBytes exState nullPtr = .ok exState ∧
    JeAllocImpl.DeallocBytes exState 1
      = .ok { heap := eraseA exState.heap 1, nextAddr := exState.nextAddr,
              tracker := RecordFree exState.tracker 1 } ∧
    JeAllocImpl.DeallocBytes exStateBad 1 = .error .assertFail :=
  ⟨(deallocBytes_contract exState).1,
   ((deallocBytes_contract exState).2 1
      ⟨9, [0, 0, 0, 0, 0, 0x19, 0x07, 0x17, 0x20]⟩
      (by decide) (by decide) (by decide)).1 (by decide),
   ((deallocBytes_contract exStateBad).2 1
      ⟨9, [0, 0, 0, 0, 0, 0xAB, 0x07, 0x17, 0x20]⟩
      (by decide) (by decide) (by decide)).2 (by decide)⟩

/-- Evaluation lemma: a successful in-bounds write. -/
theorem writeBytes_eq (s : State) (p off : Nat) (src : List Nat) (b : Block)
    (hlk : lookupA s.heap p = some b) (hb : off + src.length ≤ b.usable) :
    writeBytes s p off src
      = .ok { s with heap := updateA s.heap p ⟨b.usable, listWrite b.data off src⟩ } := by
  simp [writeBytes, hlk, hb]

/-- Evaluation lemma: `CheckOverflowFree` on a live block of usable size at
least the tag width reduces to the canary comparison. -/
theorem CheckOverflowFree_eq (s : State) (p : Nat) (b : Block)
    (hlk : lookupA s.heap p = some b) (h4 : 4 ≤ b.usable) :
    CheckOverflowFree s p
      = if listRead b.data (b.usable - 4) 4 = tagBytes then .ok ()
        else .error .assertFail := by
  have hcancel : b.usable - 4 + 4 = b.usable := Nat.sub_add_cancel h4
  simp [CheckOverflowFree, je_malloc_usable_size, readBytes, MEM_CHECKTAG_SIZE,
    hlk, hcancel]

/-- Evaluation lemma: the successful shape of the tracking-enabled
`AllocBytes` — the backing allocator grants a fresh block of `sizeClass
(count + 4)` usable bytes, the canary is stamped at its top, and the
untagged size is recorded. -/
theorem AllocBytes_ok_shape (B : Behavior) (s : State) (count : Nat)
    (f : String) (ln : Int) (fn : String)
    (h4 : 4 ≤ B.sizeClass (count + 4))
    (hA : B.canAlloc s.nextAddr (count + 4) = true) :
    JeAllocImpl.AllocBytes B s count f ln fn
      = .ok (s.nextAddr,
          { heap := (s.nextAddr,
              ⟨B.sizeClass (count + 4),
               listWrite (freshData B s.nextAddr (B.sizeClass (count + 4)))
                 (B.sizeClass (count + 4) - 4) tagBytes⟩) :: s.heap,
            nextAddr := s.nextAddr + 1,
            tracker := RecordAlloc s.tracker s.nextAddr count f ln fn }) := by
  have hlen : (freshData B s.nextAddr (B.sizeClass (count + 4))).length
      = B.sizeClass (count + 4) := by
    simp [freshData]
  have hb : B.sizeClass (count + 4) - 4 + tagBytes.length ≤ B.sizeClass (count + 4) := by
    simp [tagBytes]
    omega
  simp [JeAllocImpl.AllocBytes, je_malloc, hA, CheckOverflowAlloc,
    je_malloc_usable_size, writeBytes, lookupA, updateA, MEM_CHECKTAG_SIZE, hb]

/-- C3 (amended): for a live allocation obtained from `Allocate(count)`,
writing exactly `count` bytes never corrupts the canary — the subsequent
validation passes for every backing-allocator behavior.  Writing `count + 1`
bytes is detected as corruption on the next validation when the backing
allocator granted exactly the padded size `count + 4` (no size-class slack)
and the overflowing byte differs from the canary's first byte; the
counterexample theorem shows the overflow goes undetected when there is
slack. -/
theorem canary_bounds_amended (B : Behavior) (s : State) (count : Nat)
    (f : String) (ln : Int) (fn : String)
    (hV : B.Valid) (hA : B.canAlloc s.nextAddr (count + 4) = true) :
    (∀ data : List Nat, data.length = count →
      ∃ ptr s1 s2, JeAllocImpl.AllocBytes B s count f ln fn = .ok (ptr, s1) ∧
        writeBytes s1 ptr 0 data = .ok s2 ∧
        CheckOverflowFree s2 ptr = .ok ()) ∧
    (B.sizeClass (count + 4) = count + 4 →
      ∀ data : List Nat, data.length = count + 1 → data.getD count 0 ≠ 0x19 →
      ∃ ptr s1 s2, JeAllocImpl.AllocBytes B s count f ln fn = .ok (ptr, s1) ∧
        writeBytes s1 ptr 0 data = .ok s2 ∧
        CheckOverflowFree s2 ptr = .error .assertFail) := by
  have hu : count + 4 ≤ B.sizeClass (count + 4) := hV (count + 4)
  have h4 : 4 ≤ B.sizeClass (count + 4) := by omega
  have hshape := AllocBytes_ok_shape B s count f ln fn h4 hA
  have hlenf : (freshData B s.nextAddr (B.sizeClass (count + 4))).length
      = B.sizeClass (count + 4) := by simp [freshData]
  have hlens : (listWrite (freshData B s.nextAddr (B.sizeClass (count + 4)))
      (B.sizeClass (count + 4) - 4) tagBytes).length = B.sizeClass (count + 4) := by
    rw [listWrite_length _ _ _ (by simp [tagBytes, hlenf]; omega), hlenf]
  constructor
  · intro data hdata
    refine ⟨s.nextAddr, _, _, hshape,
      writeBytes_eq _ _ _ _ _ (lookupA_cons_self _ _ _) (by simp [hdata]; omega), ?_⟩
    rw [CheckOverflowFree_eq _ _
        ⟨B.sizeClass (count + 4),
         listWrite (listWrite (freshData B s.nextAddr (B.sizeClass (count + 4)))
           (B.sizeClass (count + 4) - 4) tagBytes) 0 data⟩
        (by rw [updateA_cons_self]; exact lookupA_cons_self _ _ _) h4]
    rw [if_pos]
    rw [listRead_listWrite_left _ _ _ _ _ (by simp [hdata]; omega) (by simp [hdata, hlens]; omega)]
    have := listRead_listWrite_self
      (freshData B s.nextAddr (B.sizeClass (count + 4))) tagBytes
      (B.sizeClass (count + 4) - 4) (by simp [tagBytes, hlenf]; omega)
    simpa [tagBytes] using this
  · intro hexact data hdata hbyte
    refine ⟨s.nextAddr, _, _, hshape,
      writeBytes_eq _ _ _ _ _ (lookupA_cons_self _ _ _) (by simp [hdata]; omega), ?_⟩
    rw [CheckOverflowFree_eq _ _
        ⟨B.sizeClass (count + 4),
         listWrite (listWrite (freshData B s.nextAddr (B.sizeClass (count + 4)))
           (B.sizeClass (count + 4) - 4) tagBytes) 0 data⟩
        (by rw [updateA_cons_self]; exact lookupA_cons_self _ _ _) h4]
    rw [if_neg]
    intro heq
    have h0 : (listRead (listWrite (listWrite (freshData B s.nextAddr
        (B.sizeClass (count + 4))) (B.sizeClass (count + 4) - 4) tagBytes) 0 data)
        (B.sizeClass (count + 4) - 4) 4)[0]? = some 0x19 := by
      rw [heq]; rfl
    rw [listRead_getElem] at h0
    rw [listWrite_getElem _ data 0 (by rw [hlens]; omega)] at h0
    have hoff : B.sizeClass (count + 4) - 4 = count := by omega
    rw [hoff] at h0
    simp [show (0 : Nat) < 4 by omega, show ¬ count + 0 < 0 by omega,
      show count + 0 < 0 + data.length by omega] at h0
    have hcd : data.getD count 0 = 0x19 := by
      have hlt : count < data.length := by omega
      rw [if_pos hlt] at h0
      have hsome : data[count]? = some data[count] := List.getElem?_eq_getElem hlt
      rw [hsome] at h0
      have hgd : data.getD count 0 = data[count] := by
        rw [List.getD_eq_getElem?_getD, hsome]
        rfl
      rw [hgd]
      exact Option.some_injective _ h0
    exact hbyte hcd

/-- C3, witness: with a no-slack backing behavior, allocating 1 byte and
writing 1 byte passes validation, while writing 2 bytes is caught by the
fatal assertion. -/
theorem canary_bounds_amended_witness :
    (∃ ptr s1 s2, JeAllocImpl.AllocBytes exactB initState 1 "a" 0 "b" = .ok (ptr, s1) ∧
       writeBytes s1 ptr 0 [0xAB] = .ok s2 ∧ CheckOverflowFree s2 ptr = .ok ()) ∧
    (∃ ptr s1 s2, JeAllocImpl.AllocBytes exactB initState 1 "a" 0 "b" = .ok (ptr, s1) ∧
       writeBytes s1 ptr 0 [0xAB, 0xAB] = .ok s2 ∧
       CheckOverflowFree s2 ptr = .error .assertFail) :=
  ⟨(canary_bounds_amended exactB initState 1 "a" 0 "b" (fun r => le_refl r) rfl).1
     [0xAB] rfl,
   (canary_bounds_amended exactB initState 1 "a" 0 "b" (fun r => le_refl r) rfl).2
     rfl [0xAB, 0xAB] rfl (by decide)⟩

/-- C4 (amended): with tracking disabled, a backing-allocator failure is
surfaced as a null return by both `AllocBytes` and `ReallocBytes`, with no
further failure mode; with tracking enabled, a backing-allocator failure is
not surfaced as null — the canary stamp (or the realloc copy) goes through
the null pointer, a wild write. -/
theorem alloc_failure_modes (B : Behavior) (s : State) (count : Nat)
    (f : String) (ln : Int) (fn : String) :
    (B.canAlloc s.nextAddr count = false →
      JeAllocImpl.AllocBytesNoTrack B s count = (nullPtr, s)) ∧
    (∀ p, p ≠ nullPtr → count ≠ 0 → (∃ b, lookupA s.heap p = some b) →
      B.canAlloc s.nextAddr count = false →
      JeAllocImpl.ReallocBytesNoTrack B s p count = (nullPtr, s)) ∧
    (lookupA s.heap nullPtr = none →
      B.canAlloc s.nextAddr (count + MEM_CHECKTAG_SIZE) = false →
      JeAllocImpl.AllocBytes B s count f ln fn = .error .wildAccess) ∧
    (∀ p blk, p ≠ nullPtr → count ≠ 0 → lookupA s.heap p = some blk →
      lookupA s.heap nullPtr = none →
      B.canAlloc s.nextAddr (count + MEM_CHECKTAG_SIZE) = false →
      JeAllocImpl.ReallocBytes B s p count f ln fn = .error .wildAccess) := by
  refine ⟨?_, ?_, ?_, ?_⟩
  · intro hA
    simp [JeAllocImpl.AllocBytesNoTrack, je_malloc, hA]
  · intro p hp hc hlk hA
    obtain ⟨b, hb⟩ := hlk
    simp [JeAllocImpl.ReallocBytesNoTrack, JeAllocImpl.je_realloc, hp, hc, hb, hA]
  · intro h0 hA
    simp [JeAllocImpl.AllocBytes, je_malloc, hA, CheckOverflowAlloc,
      je_malloc_usable_size, h0]
  · intro p blk hp hc hlk h0 hA
    have hbound : min (blk.usable - MEM_CHECKTAG_SIZE) count ≤ blk.usable := by
      unfold MEM_CHECKTAG_SIZE
      omega
    simp [JeAllocImpl.ReallocBytes, je_malloc, hA, je_malloc_usable_size,
      readBytes, writeBytes, hp, hc, hlk, h0, hbound]

/-- C4, witness: with an always-failing backing allocator, the non-tracking
paths return null from the one-element state while the tracking paths
fault. -/
theorem alloc_failure_modes_witness :
    JeAllocImpl.AllocBytesNoTrack failB exState 7 = (nullPtr, exState) ∧
    JeAllocImpl.ReallocBytesNoTrack failB exState 1 7 = (nullPtr, exState) ∧
    JeAllocImpl.AllocBytes failB exState 7 "a" 0 "b" = .error .wildAccess ∧
    JeAllocImpl.ReallocBytes failB exState 1 7 "a" 0 "b" = .error .wildAccess :=
  ⟨(alloc_failure_modes failB exState 7 "a" 0 "b").1 rfl,
   (alloc_failure_modes failB exState 7 "a" 0 "b").2.1 1 (by decide) (by decide)
     ⟨⟨9, [0, 0, 0, 0, 0, 0x19, 0x07, 0x17, 0x20]⟩, by decide⟩ rfl,
   (alloc_failure_modes failB exState 7 "a" 0 "b").2.2.1 (by decide) rfl,
   (alloc_failure_modes failB exState 7 "a" 0 "b").2.2.2 1
     ⟨9, [0, 0, 0, 0, 0, 0x19, 0x07, 0x17, 0x20]⟩
     (by decide) (by decide) (by decide) (by decide) rfl⟩

/-- Evaluation lemma: usable-size query on a live block. -/
theorem je_malloc_usable_size_eq (s : State) (p : Nat) (b : Block)
    (hlk : lookupA s.heap p = some b) :
    je_malloc_usable_size s p = .ok b.usable := by
  simp [je_malloc_usable_size, hlk]

/-- Evaluation lemma: a successful in-bounds read. -/
theorem readBytes_eq (s : State) (p off len : Nat) (b : Block)
    (hlk : lookupA s.heap p = some b) (hb : off + len ≤ b.usable) :
    readBytes s p off len = .ok (listRead b.data off len) := by
  simp [readBytes, hlk, hb]

/-- Evaluation lemma: `CheckOverflowAlloc` stamps the canary on a live
block. -/
theorem CheckOverflowAlloc_eq (s : State) (p : Nat) (b : Block)
    (hlk : lookupA s.heap p = some b) (h4 : 4 ≤ b.usable) :
    CheckOverflowAlloc s p
      = .ok { s with heap := updateA s.heap p ⟨b.usable, listWrite b.data (b.usable - 4) tagBytes⟩ } := by
  have hb : b.usable - 4 + tagBytes.length ≤ b.usable := by
    simp [tagBytes]
    omega
  simp [CheckOverflowAlloc, je_malloc_usable_size, writeBytes, MEM_CHECKTAG_SIZE,
    hlk, hb]

/-- Evaluation lemma: freeing a live non-null block. -/
theorem je_free_eq (s : State) (p : Nat) (b : Block)
    (hp : p ≠ nullPtr) (hlk : lookupA s.heap p = some b) :
    je_free s p = .ok { s with heap := eraseA s.heap p } := by
  simp [je_free, hp, hlk]

/-- Length of a bounded read. -/
theorem listRead_length (l : List Nat) (off len : Nat) :
    (listRead l off len).length = min len (l.length - off) := by
  simp [listRead]

/-- C7: with tracking enabled, for a live pointer of recorded (requested)
size `rec.size` and any `N > 0`, a successful `ReallocBytes(ptr, N)` returns
a pointer freshly obtained from the backing allocator (never the input
pointer: the resize is an explicit allocate-copy-free, not in place), whose
content agrees with the old content on the first `min(rec.size, N)` bytes;
the old pointer is freed and its tracker record replaced by one for the new
address with the new size. -/
theorem realloc_preserves_prefix (B : Behavior) (s : State) (ptr N : Nat)
    (f : String) (ln : Int) (fn : String) (blk : Block) (rec : TrackRec)
    (hV : B.Valid)
    (hp : ptr ≠ nullPtr)
    (hlk : lookupA s.heap ptr = some blk)
    (hrec : lookupA s.tracker ptr = some rec)
    (hlen : blk.data.length = blk.usable)
    (hsz : rec.size + 4 ≤ blk.usable)
    (htag : listRead blk.data (blk.usable - 4) 4 = tagBytes)
    (hN : N ≠ 0)
    (hA : B.canAlloc s.nextAddr (N + 4) = true)
    (hlt : ptr < s.nextAddr) :
    ∃ s' nblk,
      JeAllocImpl.ReallocBytes B s ptr N f ln fn = .ok (s.nextAddr, s') ∧
      s.nextAddr ≠ ptr ∧
      lookupA s'.heap s.nextAddr = some nblk ∧
      listRead nblk.data 0 (min rec.size N) = listRead blk.data 0 (min rec.size N) ∧
      lookupA s'.heap ptr = none ∧
      lookupA s'.tracker s.nextAddr = some ⟨N, f, ln, fn⟩ ∧
      lookupA s'.tracker ptr = none := by
  have hU : N + 4 ≤ B.sizeClass (N + 4) := hV (N + 4)
  have hne : s.nextAddr ≠ ptr := by omega
  have h4blk : 4 ≤ blk.usable := by omega
  have hFDlen : (freshData B s.nextAddr (B.sizeClass (N + 4))).length
      = B.sizeClass (N + 4) := by simp [freshData]
  have hBYlen : (listRead blk.data 0 (min (blk.usable - 4) N)).length
      = min (blk.usable - 4) N := by
    rw [listRead_length, hlen]
    omega
  have hND1len : (listWrite (freshData B s.nextAddr (B.sizeClass (N + 4))) 0
      (listRead blk.data 0 (min (blk.usable - 4) N))).length
      = B.sizeClass (N + 4) := by
    rw [listWrite_length, hFDlen]
    rw [hBYlen, hFDlen]
    omega
  refine ⟨{ heap := (s.nextAddr, ⟨B.sizeClass (N + 4), listWrite (listWrite (freshData B s.nextAddr (B.sizeClass (N + 4))) 0 (listRead blk.data 0 (min (blk.usable - 4) N))) (B.sizeClass (N + 4) - 4) tagBytes⟩) :: eraseA s.heap ptr, nextAddr := s.nextAddr + 1, tracker := (s.nextAddr, ⟨N, f, ln, fn⟩) :: eraseA s.tracker ptr },
    ⟨B.sizeClass (N + 4), listWrite (listWrite (freshData B s.nextAddr (B.sizeClass (N + 4))) 0 (listRead blk.data 0 (min (blk.usable - 4) N))) (B.sizeClass (N + 4) - 4) tagBytes⟩,
    ?_, hne, lookupA_cons_self _ _ _, ?_, ?_, ?_, ?_⟩
  · -- the computation itself
    have hlk1 : lookupA ((s.nextAddr, (⟨B.sizeClass (N + 4), freshData B s.nextAddr (B.sizeClass (N + 4))⟩ : Block)) :: s.heap) ptr = some blk := by
      rw [lookupA_cons_ne _ _ _ _ hne]
      exact hlk
    have hlk2 : lookupA ((s.nextAddr, (⟨B.sizeClass (N + 4), listWrite (freshData B s.nextAddr (B.sizeClass (N + 4))) 0 (listRead blk.data 0 (min (blk.usable - 4) N))⟩ : Block)) :: s.heap) ptr = some blk := by
      rw [lookupA_cons_ne _ _ _ _ hne]
      exact hlk
    have hlk3 : lookupA ((s.nextAddr, (⟨B.sizeClass (N + 4), listWrite (listWrite (freshData B s.nextAddr (B.sizeClass (N + 4))) 0 (listRead blk.data 0 (min (blk.usable - 4) N))) (B.sizeClass (N + 4) - 4) tagBytes⟩ : Block)) :: s.heap) ptr = some blk := by
      rw [lookupA_cons_ne _ _ _ _ hne]
      exact hlk
    have hrb : 0 + min (blk.usable - 4) N ≤ blk.usable := by omega
    have hwb : (0 : Nat) + (listRead blk.data 0 (min (blk.usable - 4) N)).length
        ≤ B.sizeClass (N + 4) := by
      rw [hBYlen]
      omega
    have hread : readBytes { heap := (s.nextAddr, (⟨B.sizeClass (N + 4), freshData B s.nextAddr (B.sizeClass (N + 4))⟩ : Block)) :: s.heap, nextAddr := s.nextAddr + 1, tracker := s.tracker } ptr 0 (min (blk.usable - 4) N) = .ok (listRead blk.data 0 (min (blk.usable - 4) N)) :=
      readBytes_eq _ _ _ _ blk hlk1 hrb
    have hwrite : writeBytes { heap := (s.nextAddr, (⟨B.sizeClass (N + 4), freshData B s.nextAddr (B.sizeClass (N + 4))⟩ : Block)) :: s.heap, nextAddr := s.nextAddr + 1, tracker := s.tracker } s.nextAddr 0 (listRead blk.data 0 (min (blk.usable - 4) N)) = .ok { heap := (s.nextAddr, (⟨B.sizeClass (N + 4), listWrite (freshData B s.nextAddr (B.sizeClass (N + 4))) 0 (listRead blk.data 0 (min (blk.usable - 4) N))⟩ : Block)) :: s.heap, nextAddr := s.nextAddr + 1, tracker := s.tracker } := by
      rw [writeBytes_eq _ s.nextAddr 0 (listRead blk.data 0 (min (blk.usable - 4) N)) ⟨B.sizeClass (N + 4), freshData B s.nextAddr (B.sizeClass (N + 4))⟩ (lookupA_cons_self _ _ _) hwb]
      simp [updateA_cons_self]
    have hcoa : CheckOverflowAlloc { heap := (s.nextAddr, (⟨B.sizeClass (N + 4), listWrite (freshData B s.nextAddr (B.sizeClass (N + 4))) 0 (listRead blk.data 0 (min (blk.usable - 4) N))⟩ : Block)) :: s.heap, nextAddr := s.nextAddr + 1, tracker := s.tracker } s.nextAddr = .ok { heap := (s.nextAddr, (⟨B.sizeClass (N + 4), listWrite (listWrite (freshData B s.nextAddr (B.sizeClass (N + 4))) 0 (listRead blk.data 0 (min (blk.usable - 4) N))) (B.sizeClass (N + 4) - 4) tagBytes⟩ : Block)) :: s.heap, nextAddr := s.nextAddr + 1, tracker := s.tracker } := by
      rw [CheckOverflowAlloc_eq _ s.nextAddr ⟨B.sizeClass (N + 4), listWrite (freshData B s.nextAddr (B.sizeClass (N + 4))) 0 (listRead blk.data 0 (min (blk.usable - 4) N))⟩ (lookupA_cons_self _ _ _) (by show (4 : Nat) ≤ B.sizeClass (N + 4); omega)]
      simp [updateA_cons_self]
    have hcof : CheckOverflowFree { heap := (s.nextAddr, (⟨B.sizeClass (N + 4), listWrite (listWrite (freshData B s.nextAddr (B.sizeClass (N + 4))) 0 (listRead blk.data 0 (min (blk.usable - 4) N))) (B.sizeClass (N + 4) - 4) tagBytes⟩ : Block)) :: s.heap, nextAddr := s.nextAddr + 1, tracker := (s.nextAddr, (⟨N, f, ln, fn⟩ : TrackRec)) :: s.tracker } ptr = .ok () := by
      rw [CheckOverflowFree_eq _ ptr blk hlk3 h4blk]
      rw [if_pos htag]
    have hfree : je_free { heap := (s.nextAddr, (⟨B.sizeClass (N + 4), listWrite (listWrite (freshData B s.nextAddr (B.sizeClass (N + 4))) 0 (listRead blk.data 0 (min (blk.usable - 4) N))) (B.sizeClass (N + 4) - 4) tagBytes⟩ : Block)) :: s.heap, nextAddr := s.nextAddr + 1, tracker := (s.nextAddr, (⟨N, f, ln, fn⟩ : TrackRec)) :: eraseA s.tracker ptr } ptr = .ok { heap := (s.nextAddr, (⟨B.sizeClass (N + 4), listWrite (listWrite (freshData B s.nextAddr (B.sizeClass (N + 4))) 0 (listRead blk.data 0 (min (blk.usable - 4) N))) (B.sizeClass (N + 4) - 4) tagBytes⟩ : Block)) :: eraseA s.heap ptr, nextAddr := s.nextAddr + 1, tracker := (s.nextAddr, (⟨N, f, ln, fn⟩ : TrackRec)) :: eraseA s.tracker ptr } := by
      rw [je_free_eq _ ptr blk hp hlk3]
      simp [eraseA_cons_ne _ _ _ _ hne]
    simp only [JeAllocImpl.ReallocBytes, MEM_CHECKTAG_SIZE, je_malloc, hA,
      if_true, hN, not_false_iff, ite_true, ite_false,
      je_malloc_usable_size_eq s ptr blk hlk]
    rw [if_pos hp]
    simp only [hread, hwrite, hcoa, RecordAlloc, RecordFree, hcof,
      eraseA_cons_ne s.nextAddr ptr _ _ hne, hfree]
  · have hk1 : min rec.size N ≤ min (blk.usable - 4) N := by omega
    have hk2 : min rec.size N ≤ B.sizeClass (N + 4) - 4 := by omega
    have hTK : (blk.data.take (min (blk.usable - 4) N)).length = min (blk.usable - 4) N := by
      rw [List.length_take, hlen]
      omega
    have hb3 : (blk.data.take (min (blk.usable - 4) N)).length
        ≤ (freshData B s.nextAddr (B.sizeClass (N + 4))).length := by
      rw [hTK, hFDlen]
      omega
    have hb2 : B.sizeClass (N + 4) - 4 + tagBytes.length
        ≤ (listWrite (freshData B s.nextAddr (B.sizeClass (N + 4))) 0
            (blk.data.take (min (blk.usable - 4) N))).length := by
      rw [listWrite_length _ _ _ (by rw [hTK, hFDlen]; omega), hFDlen]
      simp [tagBytes]
      omega
    have hk3 : min rec.size N ≤ (blk.data.take (min (blk.usable - 4) N)).length := by
      rw [hTK]
      omega
    simp only [listRead, List.drop_zero]
    rw [take_listWrite_back _ _ _ _ hk2 hb2]
    rw [take_listWrite_front _ _ _ hk3 hb3]
    rw [List.take_take]
    congr 1
    omega
  · rw [lookupA_cons_ne _ _ _ _ hne]
    exact lookupA_eraseA_self s.heap ptr
  · exact lookupA_cons_self _ _ _
  · rw [lookupA_cons_ne _ _ _ _ hne]
    exact lookupA_eraseA_self s.tracker ptr

/-- C7, witness: shrinking a live 5-byte allocation to 3 bytes moves it to
the fresh address 2, preserves the first 3 bytes, frees address 1 and
replaces its ledger record. -/
theorem realloc_preserves_prefix_witness :
    ∃ s' nblk,
      JeAllocImpl.ReallocBytes exactB exState 1 3 "f" 7 "g" = .ok (2, s') ∧
      (2 : Nat) ≠ 1 ∧
      lookupA s'.heap 2 = some nblk ∧
      listRead nblk.data 0 (min 5 3)
        = listRead (⟨9, [0, 0, 0, 0, 0, 0x19, 0x07, 0x17, 0x20]⟩ : Block).data 0 (min 5 3) ∧
      lookupA s'.heap 1 = none ∧
      lookupA s'.tracker 2 = some ⟨3, "f", 7, "g"⟩ ∧
      lookupA s'.tracker 1 = none :=
  realloc_preserves_prefix exactB exState 1 3 "f" 7 "g"
    ⟨9, [0, 0, 0, 0, 0, 0x19, 0x07, 0x17, 0x20]⟩ ⟨5, "f", 7, "g"⟩
    (fun r => le_refl r) (by decide) (by decide) (by decide) (by decide)
    (by decide) (by decide) (by decide) rfl (by decide)

/-- Invariant of the stats stream: starting from a nonnegative remaining
capacity whose sum with the cursor is `cap`, the loop never faults, the
invariant is preserved, the cursor only advances, and every write lands
between the starting cursor and `cap`. -/
theorem statsLoop_ok (frags : List (List Nat)) : ∀ (jd : JeDumpData) (cap : Int),
    0 ≤ jd.size → (jd.buf : Int) + jd.size = cap →
    ∃ ws jd2, statsLoop jd frags = .ok (ws, jd2) ∧
      0 ≤ jd2.size ∧ (jd2.buf : Int) + jd2.size = cap ∧
      jd.buf ≤ jd2.buf ∧
      ∀ iv ∈ ws, jd.buf ≤ iv.1 ∧ (iv.1 : Int) ≤ cap := by
  induction frags with
  | nil =>
      intro jd cap hsz hinv
      exact ⟨[], jd, rfl, hsz, hinv, le_refl _, by simp⟩
  | cons m rest ih =>
      intro jd cap hsz hinv
      by_cases hz : jd.size = 0
      · have hstep : JeStatsPrint jd m = .ok ([], jd) := by
          simp [JeStatsPrint, hz]
        obtain ⟨ws, jd2, hok, h1, h2, h3, h4⟩ := ih jd cap hsz hinv
        refine ⟨ws, jd2, ?_, h1, h2, h3, h4⟩
        simp [statsLoop, hstep, hok]
      · by_cases hgt : (m.length : Int) > jd.size
        · -- the fragment is clamped to the remaining capacity
          have hts : ((jd.size.toNat : Nat) : Int) = jd.size := Int.toNat_of_nonneg hsz
          have hstep : JeStatsPrint jd m = .ok
              ((List.range jd.size.toNat).map (fun i => (jd.buf + i, m.getD i 0))
                 ++ [(jd.buf + jd.size.toNat, 0)],
               ⟨jd.buf + jd.size.toNat, jd.size - jd.size⟩) := by
            simp only [JeStatsPrint, if_neg hz, if_pos hgt, if_neg (by omega : ¬ jd.size < 0)]
          obtain ⟨ws, jd2, hok, h1, h2, h3, h4⟩ :=
            ih ⟨jd.buf + jd.size.toNat, jd.size - jd.size⟩ cap (by simp) (by push_cast; omega)
          refine ⟨((List.range jd.size.toNat).map (fun i => (jd.buf + i, m.getD i 0))
              ++ [(jd.buf + jd.size.toNat, 0)]) ++ ws, jd2, ?_, h1, h2, ?_, ?_⟩
          · simp only [statsLoop, hstep, hok]
          · exact le_trans (Nat.le_add_right _ _) h3
          · intro iv hiv
            simp only [List.mem_append, List.mem_map, List.mem_range,
              List.mem_singleton] at hiv
            rcases hiv with (⟨i, hi, rfl⟩ | rfl) | hws
            · constructor
              · exact Nat.le_add_right _ _
              · push_cast
                omega
            · constructor
              · exact Nat.le_add_right _ _
              · push_cast
                omega
            · obtain ⟨ha, hb⟩ := h4 iv hws
              exact ⟨le_trans (Nat.le_add_right _ _) ha, hb⟩
        · -- the whole fragment fits
          have hstep : JeStatsPrint jd m = .ok
              ((List.range ((m.length : Int)).toNat).map (fun i => (jd.buf + i, m.getD i 0))
                 ++ [(jd.buf + ((m.length : Int)).toNat, 0)],
               ⟨jd.buf + ((m.length : Int)).toNat, jd.size - (m.length : Int)⟩) := by
            simp only [JeStatsPrint, if_neg hz, if_neg hgt,
              if_neg (by omega : ¬ ((m.length : Int) : Int) < 0)]
          have hts : (((m.length : Int)).toNat : Int) = (m.length : Int) := by
            simp
          obtain ⟨ws, jd2, hok, h1, h2, h3, h4⟩ :=
            ih ⟨jd.buf + ((m.length : Int)).toNat, jd.size - (m.length : Int)⟩ cap
              (by simp only []; omega) (by push_cast; omega)
          refine ⟨((List.range ((m.length : Int)).toNat).map (fun i => (jd.buf + i, m.getD i 0))
              ++ [(jd.buf + ((m.length : Int)).toNat, 0)]) ++ ws, jd2, ?_, h1, h2, ?_, ?_⟩
          · simp only [statsLoop, hstep, hok]
          · exact le_trans (Nat.le_add_right _ _) h3
          · intro iv hiv
            simp only [List.mem_append, List.mem_map, List.mem_range,
              List.mem_singleton] at hiv
            rcases hiv with (⟨i, hi, rfl⟩ | rfl) | hws
            · constructor
              · exact Nat.le_add_right _ _
              · push_cast
                omega
            · constructor
              · exact Nat.le_add_right _ _
              · push_cast
                omega
            · obtain ⟨ha, hb⟩ := h4 iv hws
              exact ⟨le_trans (Nat.le_add_right _ _) ha, hb⟩

/-- Structure of the write stream: either nothing was written (the stream
was empty or capacity was already exhausted) or the last write is the null
terminator at the final cursor. -/
theorem statsLoop_last (frags : List (List Nat)) :
    ∀ (jd : JeDumpData) (ws : List (Nat × Nat)) (jd2 : JeDumpData),
    0 ≤ jd.size →
    statsLoop jd frags = .ok (ws, jd2) →
    (ws = [] ∧ jd2.buf = jd.buf ∧ (frags = [] ∨ jd.size = 0)) ∨
    ws.getLast? = some (jd2.buf, 0) := by
  induction frags with
  | nil =>
      intro jd ws jd2 hsz hok
      left
      simp only [statsLoop, Except.ok.injEq, Prod.mk.injEq] at hok
      obtain ⟨h1, h2⟩ := hok
      exact ⟨h1.symm, by rw [← h2], Or.inl rfl⟩
  | cons m rest ih =>
      intro jd ws jd2 hsz hok
      by_cases hz : jd.size = 0
      · have hstep : JeStatsPrint jd m = .ok ([], jd) := by
          simp [JeStatsPrint, hz]
        simp only [statsLoop, hstep] at hok
        cases hrest : statsLoop jd rest with
        | error e =>
            rw [hrest] at hok
            simp at hok
        | ok p =>
            obtain ⟨ws2, jd3⟩ := p
            rw [hrest] at hok
            simp only [Except.ok.injEq, Prod.mk.injEq, List.nil_append] at hok
            obtain ⟨hw, hj⟩ := hok
            rcases ih jd ws2 jd3 hsz hrest with ⟨ha, hb, _⟩ | hlast
            · left
              refine ⟨?_, ?_, Or.inr hz⟩
              · rw [← hw]
                exact ha
              · rw [← hj]
                exact hb
            · right
              rw [← hw, ← hj]
              exact hlast
      · by_cases hgt : (m.length : Int) > jd.size
        · have hstep : JeStatsPrint jd m = .ok
              ((List.range jd.size.toNat).map (fun i => (jd.buf + i, m.getD i 0))
                 ++ [(jd.buf + jd.size.toNat, 0)],
               ⟨jd.buf + jd.size.toNat, jd.size - jd.size⟩) := by
            simp only [JeStatsPrint, if_neg hz, if_pos hgt,
              if_neg (show ¬ jd.size < 0 from by omega)]
          simp only [statsLoop, hstep] at hok
          cases hrest : statsLoop ⟨jd.buf + jd.size.toNat, jd.size - jd.size⟩ rest with
          | error e =>
              rw [hrest] at hok
              simp at hok
          | ok p =>
              obtain ⟨ws2, jd3⟩ := p
              rw [hrest] at hok
              simp only [Except.ok.injEq, Prod.mk.injEq] at hok
              obtain ⟨hw, hj⟩ := hok
              rcases ih _ ws2 jd3 (by simp) hrest with ⟨ha, hb, _⟩ | hlast
              · right
                rw [← hw, ← hj, ha, List.append_nil, List.getLast?_concat, hb]
              · right
                rw [← hw, ← hj, List.getLast?_append, hlast]
                rfl
        · have hstep : JeStatsPrint jd m = .ok
              ((List.range ((m.length : Int)).toNat).map (fun i => (jd.buf + i, m.getD i 0))
                 ++ [(jd.buf + ((m.length : Int)).toNat, 0)],
               ⟨jd.buf + ((m.length : Int)).toNat, jd.size - (m.length : Int)⟩) := by
            simp only [JeStatsPrint, if_neg hz, if_neg hgt,
              if_neg (show ¬ ((m.length : Int) : Int) < 0 from by omega)]
          simp only [statsLoop, hstep] at hok
          cases hrest : statsLoop ⟨jd.buf + ((m.length : Int)).toNat, jd.size - (m.length : Int)⟩ rest with
          | error e =>
              rw [hrest] at hok
              simp at hok
          | ok p =>
              obtain ⟨ws2, jd3⟩ := p
              rw [hrest] at hok
              simp only [Except.ok.injEq, Prod.mk.injEq] at hok
              obtain ⟨hw, hj⟩ := hok
              rcases ih _ ws2 jd3 (by simp only []; omega) hrest with ⟨ha, hb, _⟩ | hlast
              · right
                rw [← hw, ← hj, ha, List.append_nil, List.getLast?_concat, hb]
              · right
                rw [← hw, ← hj, List.getLast?_append, hlast]
                rfl

/-- Applying a write stream does not change the buffer's length. -/
theorem applyWrites_length (ws : List (Nat × Nat)) : ∀ (buf : List Nat),
    (applyWrites buf ws).length = buf.length := by
  induction ws with
  | nil => intro buf; rfl
  | cons a t ih =>
      intro buf
      show (applyWrites (buf.set a.1 a.2) t).length = buf.length
      rw [ih]
      exact List.length_set ..

/-- If the last write of a stream stores 0 at an in-bounds index, the final
buffer holds 0 there. -/
theorem applyWrites_last_zero (ws : List (Nat × Nat)) : ∀ (buf : List Nat) (i : Nat),
    ws.getLast? = some (i, 0) → i < buf.length →
    (applyWrites buf ws).getD i 1 = 0 := by
  induction ws with
  | nil =>
      intro buf i h
      simp at h
  | cons a t ih =>
      intro buf i hlast hi
      cases t with
      | nil =>
          rw [List.getLast?_singleton] at hlast
          have ha : a = (i, 0) := by
            exact Option.some_injective _ hlast
          subst ha
          show (applyWrites (buf.set i 0) []).getD i 1 = 0
          simp [applyWrites, List.getD, List.getElem?_set_eq_of_lt _ hi]
      | cons b t2 =>
          have hlast2 : (b :: t2).getLast? = some (i, 0) := by
            rwa [List.getLast?_cons_cons] at hlast
          show (applyWrites (buf.set a.1 a.2) (b :: t2)).getD i 1 = 0
          exact ih (buf.set a.1 a.2) i hlast2 (by rwa [List.length_set])

/-- C5 (amended): for every capacity `bufsize ≥ 1` and every fragment
sequence, `DumpStats` never faults, every byte it writes (terminators
included) lands strictly below index `bufsize` — at most `bufsize` bytes,
truncating silently — and whenever at least one fragment arrives and
`bufsize ≥ 2`, the resulting buffer is null-terminated within capacity.
(The counterexample theorem shows both guarantees fail at `bufsize = 0`,
and the `bufsize = 1` / empty-stream cases write no terminator at all.) -/
theorem dumpStats_bounded (bufsize : Int) (frags : List (List Nat))
    (h1 : 1 ≤ bufsize) :
    ∃ ws, DumpStats bufsize frags = .ok ws ∧
      (∀ iv ∈ ws, (iv.1 : Int) < bufsize) ∧
      (frags ≠ [] → 2 ≤ bufsize → ∀ buf : List Nat, (buf.length : Int) = bufsize →
        ∃ k : Nat, (k : Int) < bufsize ∧ (applyWrites buf ws).getD k 1 = 0) := by
  obtain ⟨ws, jd2, hok, hs2, hinv2, hadv, hmem⟩ :=
    statsLoop_ok frags ⟨0, bufsize - 1⟩ (bufsize - 1)
      (by show (0 : Int) ≤ bufsize - 1; omega)
      (by show ((0 : Nat) : Int) + (bufsize - 1) = bufsize - 1; simp)
  refine ⟨ws, ?_, ?_, ?_⟩
  · simp only [DumpStats, hok]
  · intro iv hiv
    have := (hmem iv hiv).2
    omega
  · intro hne h2 buf hbuf
    rcases statsLoop_last frags ⟨0, bufsize - 1⟩ ws jd2
        (by show (0 : Int) ≤ bufsize - 1; omega) hok with ⟨_, _, hor⟩ | hlast
    · rcases hor with h | h
      · exact absurd h hne
      · exfalso
        have : bufsize - 1 = 0 := h
        omega
    · refine ⟨jd2.buf, by omega, ?_⟩
      apply applyWrites_last_zero ws buf jd2.buf hlast
      omega

/-- C5, witness: with capacity 10 and fragments "ABC", "DE", "FGHIJK"
(11 bytes in all), every write lands below index 10 and the final buffer is
null-terminated within capacity. -/
theorem dumpStats_bounded_witness :
    ∃ ws, DumpStats 10 [[65, 66, 67], [68, 69], [70, 71, 72, 73, 74, 75]] = .ok ws ∧
      (∀ iv ∈ ws, (iv.1 : Int) < 10) ∧
      ([[65, 66, 67], [68, 69], [70, 71, 72, 73, 74, 75]] ≠ ([] : List (List Nat)) →
        (2 : Int) ≤ 10 → ∀ buf : List Nat, (buf.length : Int) = 10 →
        ∃ k : Nat, (k : Int) < 10 ∧ (applyWrites buf ws).getD k 1 = 0) :=
  dumpStats_bounded 10 [[65, 66, 67], [68, 69], [70, 71, 72, 73, 74, 75]] (by decide)
